import Mathlib

/-!
Verification of the cloudtail event router: the stash (suppression-rule)
model, the dispatch engine (`processEvent`), the registration operations
(`addStash`, `addNotifier`, `New`), the Hipchat notifier construction and
send path, and the legacy single-file implementation, shallowly embedded
from the Go sources.
-/

namespace Cloudtail

/-- A CloudTrail event as used by the dispatcher.  In Go the fields are
`*string` pointers (`cloudtrail.Event`); `aws.StringValue` maps a nil
pointer to `""`, so each field is an `Option String` here. -/
structure Event where
  eventId : Option String
  eventName : Option String
  username : Option String
deriving DecidableEq, Repr

/-- The `aws.StringValue` helper: dereference a `*string`, with nil mapped to `""`. -/
def stringValue : Option String → String
  | none => ""
  | some s => s

/-- The `Stash` struct of `main.go`: a suppression rule.  `TTL` is a Go
`time.Duration` (int64 nanoseconds) and `Expiration` a `time.Time`, both
modelled as `Int`; they and the remaining reserved fields are never read
by `discard`. -/
structure Stash where
  EventName : String
  Username : String
  TTL : Int
  Expiration : Int
  Regex : String
  ResourceName : String
  ResourceType : String
  Description : String
  Destinations : List String
deriving DecidableEq, Repr

/-- The `Stash.discard` method from `main.go`: returns true if the event should not
be forwarded.  Only the `EventName` and `Username` fields are compared;
the `dest` argument is received but never used. -/
def Stash.discard (s : Stash) (event : Event) (dest : String) : Bool :=
  if s.EventName != "" && s.EventName == stringValue event.eventName then
    true
  else if s.Username != "" && s.Username == stringValue event.username then
    true
  else
    false

/-- A registered notifier (`Notifiers` interface of `main.go`): it reports
a name and delivers events.  `Send` has effects in Go; here its outcome on
each event is given by a function into `Except String Unit` (`.error` is a
non-nil Go `error`). -/
structure NotifierM where
  name : String
  send : Event → Except String Unit

/-- The outcome `processEvent` records (via its log lines) for one
notifier: suppressed by the given stash id, delivered, or delivery
returned an error. -/
inductive Outcome where
  | suppressed (stashID : Nat)
  | sentOk
  | sentErr (msg : String)
deriving DecidableEq, Repr

/-- The inner stash loop of `processEvent`: scan the stash mapping in
iteration order and `break` at the first stash whose `discard` is true,
reporting its id; `none` when no stash matches.  Go map iteration order is
unspecified, so the mapping is taken as a list in that order. -/
def findDiscard : List (Nat × Stash) → Event → String → Option Nat
  | [], _, _ => none
  | (stashID, st) :: rest, event, dest =>
    if st.discard event dest then some stashID
    else findDiscard rest event dest

/-- The body of `processEvent`'s outer loop for a single notifier:
evaluate the stashes; if one matches, the notifier is suppressed
(`continue` before `Send`); otherwise `Send` is invoked and an error,
if any, is logged and swallowed (`continue`). -/
def notifierOutcome (stashes : List (Nat × Stash)) (n : NotifierM)
    (event : Event) : Outcome :=
  match findDiscard stashes event n.name with
  | some stashID => Outcome.suppressed stashID
  | none =>
    match n.send event with
    | Except.ok _ => Outcome.sentOk
    | Except.error msg => Outcome.sentErr msg

/-- The `Controller.processEvent` method from `main.go`, under the read lock: for
each notifier in registration order, run the stash loop and (when not
suppressed) invoke `Send`.  The function returns the per-notifier
outcomes (in Go these are observable only through the log; the Go
function itself returns nothing, so no error ever reaches its caller). -/
def processEvent (stashes : List (Nat × Stash)) :
    List NotifierM → Event → List (String × Outcome)
  | [], _ => []
  | n :: rest, event =>
    let name := n.name
    let oc :=
      match findDiscard stashes event name with
      | some stashID => Outcome.suppressed stashID
      | none =>
        match n.send event with
        | Except.ok _ => Outcome.sentOk
        | Except.error msg => Outcome.sentErr msg
    (name, oc) :: processEvent stashes rest event

/-- The `Controller` state of `main.go`: the stash mapping (a Go
`map[int]Stash`, modelled as an association list without duplicate keys,
in iteration order) and the notifier slice.  The `sync.RWMutex`, debug
flag and logger carry no dispatch state. -/
structure Controller where
  stashes : List (Nat × Stash)
  notifiers : List NotifierM

/-- Go map assignment `m[k] = v`: overwrite the entry if the key is
present, otherwise add a new entry. -/
def mapInsert (m : List (Nat × Stash)) (k : Nat) (v : Stash) :
    List (Nat × Stash) :=
  if m.any (fun p => p.1 == k) then
    m.map (fun p => if p.1 == k then (k, v) else p)
  else
    m ++ [(k, v)]

/-- Go map lookup `m[k]` (first entry with the key). -/
def mapLookup (m : List (Nat × Stash)) (k : Nat) : Option Stash :=
  match m.find? (fun p => p.1 == k) with
  | some p => some p.2
  | none => none

/-- The `Controller.addStash` method from `main.go`, under the write lock: the new
id is `len(c.stashes) + 1` and the stash is stored under it; the id is
returned. -/
def Controller.addStash (c : Controller) (s : Stash) : Controller × Nat :=
  let stashes := c.stashes.length
  let nextStash := stashes + 1
  ({ c with stashes := mapInsert c.stashes nextStash s }, nextStash)

/-- The `Controller.addNotifier` method from `main.go`, under the write lock:
append to the notifier slice. -/
def Controller.addNotifier (c : Controller) (n : NotifierM) : Controller :=
  { c with notifiers := c.notifiers ++ [n] }

/-- The `New` constructor from `main.go`: a fresh controller with an empty stash map and
an empty notifier slice. -/
def Controller.New : Controller :=
  { stashes := [], notifiers := [] }

/-- Register a list of stashes sequentially, collecting the returned ids
in call order. -/
def Controller.addStashes (c : Controller) : List Stash → Controller × List Nat
  | [] => (c, [])
  | s :: rest =>
    let (c1, id) := c.addStash s
    let (c2, ids) := c1.addStashes rest
    (c2, id :: ids)

/-- The constant `HipchatDefaultEndoint` from `notifier/hipchat.go` (the typo is the
source's): used unless a custom endpoint is set. -/
def HipchatDefaultEndoint : String := "https://api.hipchat.com"

/-- The `Hipchat` struct of `notifier/hipchat.go`. -/
structure Hipchat where
  Endpoint : String
  RoomID : String
  Token : String
  From : String
deriving DecidableEq, Repr

/-- The configuration loop of `NewHipchat`: fold the `map[string]string`
(taken as a list in iteration order; a later duplicate key overwrites an
earlier one, as in a Go map) over the `switch`, starting from the
zero-valued struct.  Keys other than room, token, from, endpoint hit no
case and are ignored. -/
def applyHipchatConfig (config : List (String × String)) : Hipchat :=
  config.foldl
    (fun h kv =>
      if kv.1 == "room" then { h with RoomID := kv.2 }
      else if kv.1 == "token" then { h with Token := kv.2 }
      else if kv.1 == "from" then { h with From := kv.2 }
      else if kv.1 == "endpoint" then { h with Endpoint := kv.2 }
      else h)
    { Endpoint := "", RoomID := "", Token := "", From := "" }

/-- The `NewHipchat` constructor from `notifier/hipchat.go`: apply the configuration,
then fail on a missing room, token or from; default the endpoint when
empty. -/
def NewHipchat (config : List (String × String)) : Except String Hipchat :=
  let h := applyHipchatConfig config
  if h.RoomID == "" then Except.error "missing room"
  else if h.Token == "" then Except.error "missing token"
  else if h.From == "" then Except.error "missing from"
  else if h.Endpoint == "" then
    Except.ok { h with Endpoint := HipchatDefaultEndoint }
  else
    Except.ok h

/-- The HTTP response seen by `Hipchat.Send`: the status code, and the
outcome of `ioutil.ReadAll(resp.Body)` (`.ok` the body bytes, `.error`
a read failure). -/
structure HipchatHTTPResponse where
  statusCode : Nat
  readBody : Except String String
deriving Repr

/-- The outcomes of the effectful steps of one `Hipchat.Send` call:
`json.Marshal(message)`, `http.NewRequest`, and
`http.DefaultClient.Do(req)`.  Each is an oracle input to the shallow
embedding. -/
structure SendEffects where
  marshalResult : Except String String
  newRequestResult : Except String Unit
  doResult : Except String HipchatHTTPResponse
deriving Repr

/-- The `Hipchat.Send` method from `notifier/hipchat.go`, with its effects given by
`eff`.  Mirrors the source line by line: a marshal, request-construction
or `Do` error is returned; then `respBody, err := ioutil.ReadAll(...)` is
executed but that `err` is never examined afterwards (a failed read
leaves `respBody` empty); a status code ≥ 300 yields an error mentioning
the status and body, and otherwise nil is returned. -/
def Hipchat.Send (h : Hipchat) (e : Event) (eff : SendEffects) :
    Except String Unit :=
  match eff.marshalResult with
  | Except.error msg => Except.error msg
  | Except.ok _body =>
    match eff.newRequestResult with
    | Except.error msg => Except.error msg
    | Except.ok _ =>
      match eff.doResult with
      | Except.error msg => Except.error msg
      | Except.ok resp =>
        let respBody :=
          match resp.readBody with
          | Except.ok b => b
          | Except.error _ => ""
        if resp.statusCode ≥ 300 then
          Except.error
            ("unexpected status " ++ toString resp.statusCode ++ " - "
              ++ respBody)
        else
          Except.ok ()

/-- Whether an `Except` result is an error. -/
def exceptIsError {ε α : Type} : Except ε α → Bool
  | Except.error _ => true
  | Except.ok _ => false

end Cloudtail

namespace CloudtailLegacy

open Cloudtail (Event stringValue)

/-- The `stash` struct of the legacy single-file implementation
(`src/unnamed/part_000`): only event name, user name and the reserved
destinations list. -/
structure LegacyStash where
  EventName : String
  Username : String
  Destinations : List String
deriving DecidableEq, Repr

/-- The `stash.discard` method from the legacy implementation: same comparisons as
the current `Stash.discard`. -/
def LegacyStash.discard (s : LegacyStash) (event : Event) (dest : String) :
    Bool :=
  if s.EventName != "" && s.EventName == stringValue event.eventName then
    true
  else if s.Username != "" && s.Username == stringValue event.username then
    true
  else
    false

/-- Embed a legacy stash into the current `Stash` record: the shared
fields carry over, the fields added later take their zero values. -/
def toStash (ls : LegacyStash) : Cloudtail.Stash :=
  { EventName := ls.EventName
    Username := ls.Username
    TTL := 0
    Expiration := 0
    Regex := ""
    ResourceName := ""
    ResourceType := ""
    Description := ""
    Destinations := ls.Destinations }

/-- A legacy `service`: its `Send` returns nothing (no error), so for
dispatch only the name matters. -/
structure LegacyService where
  name : String

/-- The inner stash loop of the legacy `testHandler`: first matching
stash id, `break` on match. -/
def legacyFindDiscard : List (Nat × LegacyStash) → Event → String → Option Nat
  | [], _, _ => none
  | (stashID, st) :: rest, event, dest =>
    if st.discard event dest then some stashID
    else legacyFindDiscard rest event dest

/-- The dispatch loop inside the legacy `testHandler` (after a successful
decode), under the read lock: for each service in order, evaluate the
stashes; when not discarded, `sv.Send(event)` is invoked.  Returns, per
service in order, its name and whether `Send` was invoked. -/
def legacyDispatch (stashes : List (Nat × LegacyStash)) :
    List LegacyService → Event → List (String × Bool)
  | [], _ => []
  | sv :: rest, event =>
    let name := sv.name
    let discard := (legacyFindDiscard stashes event name).isSome
    (name, !discard) :: legacyDispatch stashes rest event

/-- Names of the services whose `Send` was invoked in a legacy dispatch
pass. -/
def legacySentNames (rs : List (String × Bool)) : List String :=
  (rs.filter (fun p => p.2)).map Prod.fst

end CloudtailLegacy

namespace Cloudtail

/-- Names of the notifiers whose `Send` was invoked in a `processEvent`
pass: those not suppressed (a `Send` that returned an error was still
invoked). -/
def sentNames (ocs : List (String × Outcome)) : List String :=
  (ocs.filter (fun p =>
    match p.2 with
    | Outcome.suppressed _ => false
    | Outcome.sentOk => true
    | Outcome.sentErr _ => true)).map Prod.fst

/-- The keys of a controller's stash mapping, in iteration order. -/
def keysOf (c : Controller) : List Nat := c.stashes.map Prod.fst

/-- A mutation of the controller after `New`: one of the two registration
operations. -/
inductive Op where
  | addStash (s : Stash)
  | addNotifier (n : NotifierM)

/-- Apply one registration operation to the controller state. -/
def applyOp (c : Controller) : Op → Controller
  | Op.addStash s => (c.addStash s).1
  | Op.addNotifier n => c.addNotifier n

/-- The controller reached from `New` by a sequence of registration
operations. -/
def runOps (ops : List Op) : Controller :=
  ops.foldl applyOp Controller.New

/-- How many of the operations are `addStash` calls. -/
def numStashOps : List Op → Nat
  | [] => 0
  | Op.addStash _ :: rest => numStashOps rest + 1
  | Op.addNotifier _ :: rest => numStashOps rest

/-- A notifier whose delivery always succeeds (a console sink). -/
def okNotifier : NotifierM := ⟨"stdout", fun _ => Except.ok ()⟩

/-- A notifier whose delivery always fails. -/
def failingNotifier : NotifierM := ⟨"Hipchat", fun _ => Except.error "boom"⟩

/-- A sample event no sample stash matches (Scenario B of the spec). -/
def createUserEvent : Event := ⟨some "e2", some "CreateUser", none⟩

/-- A sample constructed Hipchat sink. -/
def sampleHipchat : Hipchat := ⟨HipchatDefaultEndoint, "r1", "t1", "bot"⟩

/-- An HTTP response whose status is 200 but whose body cannot be read. -/
def readFailedResp : HipchatHTTPResponse :=
  { statusCode := 200, readBody := Except.error "read failure" }

/-- Effects of a `Hipchat.Send` call in which marshalling, request
construction and the POST all succeed but reading the response body
fails. -/
def readFailedEffects : SendEffects :=
  { marshalResult := Except.ok "body"
    newRequestResult := Except.ok ()
    doResult := Except.ok readFailedResp }

lemma discard_eq_or (s : Stash) (e : Event) (d : String) :
    s.discard e d =
      ((s.EventName != "" && s.EventName == stringValue e.eventName) ||
       (s.Username != "" && s.Username == stringValue e.username)) := by
  unfold Stash.discard
  cases h1 : (s.EventName != "" && s.EventName == stringValue e.eventName) <;>
    cases h2 : (s.Username != "" && s.Username == stringValue e.username) <;>
      simp [h1, h2]

/-- C1: `Stash.discard` returns true iff the stash's event-type-name
filter is non-empty and equals the event's event-type name, or its
principal-name filter is non-empty and equals the event's principal name
(exact, case-sensitive string equality); an entirely empty stash matches
no event; and the reserved fields (TTL, expiration, regex, resource
name/type, description, destinations) contribute no comparison. -/
theorem discard_matches_spec :
    (∀ (s : Stash) (e : Event) (d : String),
      s.discard e d = true ↔
        (s.EventName ≠ "" ∧ s.EventName = stringValue e.eventName) ∨
        (s.Username ≠ "" ∧ s.Username = stringValue e.username)) ∧
    (∀ (e : Event) (d : String),
      (Stash.mk "" "" 0 0 "" "" "" "" []).discard e d = false) ∧
    (∀ (s : Stash) (e : Event) (d : String) (ttl expi : Int)
        (rgx rn rt desc : String) (dst : List String),
      Stash.discard
        { s with TTL := ttl, Expiration := expi, Regex := rgx,
                 ResourceName := rn, ResourceType := rt,
                 Description := desc, Destinations := dst } e d
        = s.discard e d) := by
  refine ⟨fun s e d => ?_, fun e d => rfl,
    fun s e d ttl expi rgx rn rt desc dst => rfl⟩
  rw [discard_eq_or]
  simp [Bool.or_eq_true, Bool.and_eq_true, bne_iff_ne, beq_iff_eq]

/-- C8: the suppression decision is independent of the destination
argument (`discard` never reads `dest`) and of the stash's
`Destinations` field, so one event/stash pair yields the same decision
for every notifier. -/
theorem discard_destination_independent :
    (∀ (s : Stash) (e : Event) (d1 d2 : String),
      s.discard e d1 = s.discard e d2) ∧
    (∀ (s : Stash) (e : Event) (d : String) (dst : List String),
      Stash.discard { s with Destinations := dst } e d = s.discard e d) :=
  ⟨fun _ _ _ _ => rfl, fun _ _ _ _ => rfl⟩

lemma processEvent_eq_map (stashes : List (Nat × Stash)) (ns : List NotifierM)
    (e : Event) :
    processEvent stashes ns e =
      ns.map (fun n => (n.name, notifierOutcome stashes n e)) := by
  induction ns with
  | nil => rfl
  | cons n rest ih =>
    show (n.name, notifierOutcome stashes n e) :: processEvent stashes rest e = _
    rw [ih, List.map_cons]

lemma findDiscard_cons_true {stashID : Nat} {st : Stash}
    {rest : List (Nat × Stash)} {e : Event} {d : String}
    (hp : st.discard e d = true) :
    findDiscard ((stashID, st) :: rest) e d = some stashID := by
  simp only [findDiscard]
  rw [hp]
  simp

lemma findDiscard_cons_false {stashID : Nat} {st : Stash}
    {rest : List (Nat × Stash)} {e : Event} {d : String}
    (hp : st.discard e d = false) :
    findDiscard ((stashID, st) :: rest) e d = findDiscard rest e d := by
  simp only [findDiscard]
  rw [hp]
  simp

lemma findDiscard_eq_none_iff (stashes : List (Nat × Stash)) (e : Event)
    (d : String) :
    findDiscard stashes e d = none ↔
      ∀ q ∈ stashes, q.2.discard e d = false := by
  induction stashes with
  | nil => simp [findDiscard]
  | cons p rest ih =>
    obtain ⟨stashID, st⟩ := p
    cases hp : st.discard e d with
    | true =>
      rw [findDiscard_cons_true hp]
      constructor
      · intro hcontra
        cases hcontra
      · intro hall
        have := hall (stashID, st) (List.mem_cons_self _ _)
        rw [hp] at this
        cases this
    | false =>
      rw [findDiscard_cons_false hp, ih]
      constructor
      · intro hall q hq
        rcases List.mem_cons.mp hq with hhead | htail
        · rw [hhead]; exact hp
        · exact hall q htail
      · intro hall q hq
        exact hall q (List.mem_cons_of_mem _ hq)

lemma findDiscard_append_match (pre post : List (Nat × Stash)) (stashID : Nat)
    (st : Stash) (e : Event) (d : String) (hst : st.discard e d = true)
    (hpre : ∀ q ∈ pre, q.2.discard e d = false) :
    findDiscard (pre ++ (stashID, st) :: post) e d = some stashID := by
  induction pre with
  | nil =>
    rw [List.nil_append]
    exact findDiscard_cons_true hst
  | cons p pre ih =>
    obtain ⟨pid, pst⟩ := p
    have hp : pst.discard e d = false :=
      hpre (pid, pst) (List.mem_cons_self _ _)
    rw [List.cons_append, findDiscard_cons_false hp]
    exact ih (fun q hq => hpre q (List.mem_cons_of_mem _ hq))

/-- C2: in `processEvent`, whenever some stash in the mapping matches the
event, the notifier's outcome is `suppressed` (its `Send` is never
invoked for that event), and the inner stash loop returns the first
matching stash's id, never inspecting the stashes after it. -/
theorem processEvent_suppression :
    (∀ (stashes : List (Nat × Stash)) (ns : List NotifierM) (e : Event)
        (i : Nat) (hi : i < ns.length),
      (∃ q ∈ stashes, q.2.discard e ns[i].name = true) →
      ∃ stashID, (processEvent stashes ns e)[i]? =
        some (ns[i].name, Outcome.suppressed stashID)) ∧
    (∀ (pre post : List (Nat × Stash)) (stashID : Nat) (st : Stash)
        (e : Event) (d : String),
      st.discard e d = true →
      (∀ q ∈ pre, q.2.discard e d = false) →
      findDiscard (pre ++ (stashID, st) :: post) e d = some stashID) := by
  constructor
  · intro stashes ns e i hi hex
    obtain ⟨q, hq, hqd⟩ := hex
    cases hfd : findDiscard stashes e ns[i].name with
    | none =>
      have := (findDiscard_eq_none_iff stashes e ns[i].name).mp hfd q hq
      rw [hqd] at this
      cases this
    | some stashID =>
      refine ⟨stashID, ?_⟩
      rw [processEvent_eq_map, List.getElem?_map,
        List.getElem?_eq_getElem hi]
      simp [notifierOutcome, hfd]
  · intro pre post stashID st e d hst hpre
    exact findDiscard_append_match pre post stashID st e d hst hpre

/-- Witness for `processEvent_suppression` at a concrete input:
one stash filtering the event type DeleteBucket suppresses the matching
event for the single registered notifier, and the inner loop reports
stash id 1. -/
theorem processEvent_suppression_witness :
    (∃ stashID,
      (processEvent [(1, Stash.mk "DeleteBucket" "" 0 0 "" "" "" "" [])]
        [⟨"stdout", fun _ => Except.ok ()⟩]
        ⟨some "e1", some "DeleteBucket", none⟩)[0]? =
        some (("stdout" : String), Outcome.suppressed stashID)) ∧
    findDiscard
      ([] ++ (1, Stash.mk "DeleteBucket" "" 0 0 "" "" "" "" []) :: [])
      ⟨some "e1", some "DeleteBucket", none⟩ "stdout" = some 1 := by
  constructor
  · exact processEvent_suppression.1
      [(1, Stash.mk "DeleteBucket" "" 0 0 "" "" "" "" [])]
      [⟨"stdout", fun _ => Except.ok ()⟩]
      ⟨some "e1", some "DeleteBucket", none⟩ 0 (by decide)
      ⟨(1, Stash.mk "DeleteBucket" "" 0 0 "" "" "" "" []),
        List.mem_cons_self _ _, by decide⟩
  · exact processEvent_suppression.2 [] []
      1 (Stash.mk "DeleteBucket" "" 0 0 "" "" "" "" [])
      ⟨some "e1", some "DeleteBucket", none⟩ "stdout" (by decide)
      (fun q hq => by cases hq)

/-- C3: `processEvent` attempts stash evaluation and delivery for every
notifier in registration order; each notifier's outcome is a function of
that notifier alone, so a `Send` error from one notifier neither
prevents the evaluation and delivery attempts of every later notifier
nor escapes `processEvent`, which is total and yields an outcome for
every notifier (in Go it returns nothing, so no error reaches its
caller); concretely, after a failing notifier the next notifier is
still delivered to. -/
theorem processEvent_failure_isolation :
    (∀ (stashes : List (Nat × Stash)) (ns : List NotifierM) (e : Event),
      (processEvent stashes ns e).map Prod.fst = ns.map NotifierM.name) ∧
    (∀ (stashes : List (Nat × Stash)) (ns : List NotifierM) (e : Event),
      processEvent stashes ns e =
        ns.map (fun n => (n.name, notifierOutcome stashes n e))) ∧
    (∀ (stashes : List (Nat × Stash)) (pre : List NotifierM)
        (n : NotifierM) (post : List NotifierM) (e : Event),
      processEvent stashes (pre ++ n :: post) e =
        processEvent stashes pre e ++
          (n.name, notifierOutcome stashes n e) ::
            processEvent stashes post e) ∧
    processEvent [] [failingNotifier, okNotifier] createUserEvent =
      [("Hipchat", Outcome.sentErr "boom"), ("stdout", Outcome.sentOk)] := by
  refine ⟨?_, processEvent_eq_map, ?_, rfl⟩
  · intro stashes ns e
    rw [processEvent_eq_map]
    simp
  · intro stashes pre n post e
    simp [processEvent_eq_map]

lemma mapLookup_eq (m : List (Nat × Stash)) (k : Nat) :
    mapLookup m k = (m.find? (fun p => p.1 == k)).map Prod.snd := by
  unfold mapLookup
  cases h : m.find? (fun p => p.1 == k) <;> rfl

lemma mapLookup_append_fresh (m : List (Nat × Stash)) (k : Nat) (v : Stash)
    (h : m.any (fun p => p.1 == k) = false) :
    mapLookup (m ++ [(k, v)]) k = some v := by
  have hm : m.find? (fun p => p.1 == k) = none :=
    List.find?_eq_none.mpr (fun x hx => by
      have := List.any_eq_false.mp h x hx
      simpa using this)
  rw [mapLookup_eq, List.find?_append, hm]
  simp

lemma mapLookup_replace (m : List (Nat × Stash)) (k : Nat) (v : Stash)
    (h : m.any (fun p => p.1 == k) = true) :
    mapLookup (m.map (fun p => if p.1 == k then (k, v) else p)) k =
      some v := by
  induction m with
  | nil => cases h
  | cons p rest ih =>
    cases hp : (p.1 == k) with
    | true =>
      rw [mapLookup_eq, List.map_cons, if_pos hp]
      rw [show List.find? (fun p => p.1 == k)
          ((k, v) :: List.map (fun p => if p.1 == k then (k, v) else p) rest)
          = some (k, v) from List.find?_cons_of_pos _ (by simp)]
      rfl
    | false =>
      have hrest : rest.any (fun q => q.1 == k) = true := by
        rw [List.any_cons, hp] at h
        simpa using h
      have ih' := ih hrest
      rw [mapLookup_eq] at ih'
      rw [mapLookup_eq, List.map_cons, if_neg (by simp [hp])]
      rw [show List.find? (fun p => p.1 == k)
          (p :: List.map (fun p => if p.1 == k then (k, v) else p) rest)
          = List.find? (fun p => p.1 == k)
              (List.map (fun p => if p.1 == k then (k, v) else p) rest) from
        List.find?_cons_of_neg _ (by simp [hp])]
      exact ih'

lemma mapLookup_mapInsert_self (m : List (Nat × Stash)) (k : Nat)
    (v : Stash) :
    mapLookup (mapInsert m k v) k = some v := by
  unfold mapInsert
  cases h : m.any (fun p => p.1 == k) with
  | true =>
    rw [if_pos rfl]
    exact mapLookup_replace m k v h
  | false =>
    rw [if_neg (by decide)]
    exact mapLookup_append_fresh m k v h

lemma any_key_eq_false {m : List (Nat × Stash)} {k : Nat}
    (h : k ∉ m.map Prod.fst) : m.any (fun p => p.1 == k) = false := by
  rw [List.any_eq_false]
  intro p hp hbeq
  exact h (List.mem_map.mpr ⟨p, hp, by simpa using hbeq⟩)

lemma mapInsert_fresh {m : List (Nat × Stash)} {k : Nat} (v : Stash)
    (h : k ∉ m.map Prod.fst) :
    mapInsert m k v = m ++ [(k, v)] := by
  unfold mapInsert
  rw [any_key_eq_false h, if_neg (by decide)]

lemma not_mem_range'_top (n : Nat) : (n + 1) ∉ List.range' 1 n := by
  intro hmem
  rw [List.mem_range'] at hmem
  obtain ⟨i, hi, he⟩ := hmem
  omega

lemma addStash_spec {c : Controller}
    (hinv : keysOf c = List.range' 1 c.stashes.length) (s : Stash) :
    (c.addStash s).2 = c.stashes.length + 1 ∧
    (c.addStash s).1.stashes = c.stashes ++ [(c.stashes.length + 1, s)] ∧
    (c.addStash s).1.notifiers = c.notifiers ∧
    (c.addStash s).1.stashes.length = c.stashes.length + 1 ∧
    keysOf (c.addStash s).1 =
      List.range' 1 ((c.addStash s).1.stashes.length) := by
  have hfresh : (c.stashes.length + 1) ∉ c.stashes.map Prod.fst := by
    rw [show c.stashes.map Prod.fst = keysOf c from rfl, hinv]
    exact not_mem_range'_top _
  have hins : mapInsert c.stashes (c.stashes.length + 1) s =
      c.stashes ++ [(c.stashes.length + 1, s)] := mapInsert_fresh s hfresh
  refine ⟨rfl, hins, rfl, ?_, ?_⟩
  · show (mapInsert c.stashes (c.stashes.length + 1) s).length = _
    rw [hins]
    simp
  · show (mapInsert c.stashes (c.stashes.length + 1) s).map Prod.fst =
      List.range' 1 ((mapInsert c.stashes (c.stashes.length + 1) s).length)
    rw [hins, List.map_append, List.length_append,
      show c.stashes.map Prod.fst = keysOf c from rfl, hinv]
    simp [List.range'_1_concat, Nat.add_comm]

lemma addStashes_spec (ss : List Stash) : ∀ (c : Controller),
    keysOf c = List.range' 1 c.stashes.length →
    (c.addStashes ss).2 = List.range' (c.stashes.length + 1) ss.length ∧
    (c.addStashes ss).1.stashes.length = c.stashes.length + ss.length ∧
    keysOf (c.addStashes ss).1 =
      List.range' 1 ((c.addStashes ss).1.stashes.length) := by
  induction ss with
  | nil =>
    intro c hinv
    exact ⟨rfl, rfl, hinv⟩
  | cons s rest ih =>
    intro c hinv
    obtain ⟨h2, _, _, hlen, hkeys⟩ := addStash_spec hinv s
    obtain ⟨ihids, ihlen, ihkeys⟩ := ih (c.addStash s).1 hkeys
    refine ⟨?_, ?_, ihkeys⟩
    · show (c.addStash s).2 :: ((c.addStash s).1.addStashes rest).2 = _
      rw [List.length_cons, List.range'_succ, h2, ihids, hlen]
    · show ((c.addStash s).1.addStashes rest).1.stashes.length = _
      rw [ihlen, hlen, List.length_cons]
      omega

/-- C4: starting from a fresh controller (`New`), n sequential `addStash`
calls return the ids 1, 2, ..., n in that order; each call assigns
`len(c.stashes) + 1` as the new id and stores the stash under that id. -/
theorem addStash_sequential_ids :
    (∀ (ss : List Stash),
      (Controller.New.addStashes ss).2 = List.range' 1 ss.length) ∧
    (∀ (c : Controller) (s : Stash),
      (c.addStash s).2 = c.stashes.length + 1 ∧
      mapLookup (c.addStash s).1.stashes (c.stashes.length + 1) =
        some s) := by
  constructor
  · intro ss
    exact (addStashes_spec ss Controller.New rfl).1
  · intro c s
    exact ⟨rfl, mapLookup_mapInsert_self c.stashes _ s⟩

lemma runOps_inv (ops : List Op) : ∀ (c : Controller),
    keysOf c = List.range' 1 c.stashes.length →
    keysOf (ops.foldl applyOp c) =
      List.range' 1 ((ops.foldl applyOp c).stashes.length) ∧
    (ops.foldl applyOp c).stashes.length =
      c.stashes.length + numStashOps ops := by
  induction ops with
  | nil =>
    intro c hinv
    exact ⟨hinv, rfl⟩
  | cons op rest ih =>
    intro c hinv
    cases op with
    | addStash s =>
      obtain ⟨_, _, _, hlen, hkeys⟩ := addStash_spec hinv s
      obtain ⟨ihkeys, ihlen⟩ := ih (c.addStash s).1 hkeys
      refine ⟨ihkeys, ?_⟩
      show (rest.foldl applyOp (c.addStash s).1).stashes.length =
        c.stashes.length + (numStashOps rest + 1)
      rw [ihlen, hlen]
      omega
    | addNotifier n =>
      obtain ⟨ihkeys, ihlen⟩ := ih (c.addNotifier n) hinv
      exact ⟨ihkeys, ihlen⟩

/-- C10: for every controller created by `New` and every sequence of
`addStash`/`addNotifier` operations, the stash-mapping key list is
exactly 1, ..., n where n is the number of `addStash` calls so far; the
stash count equals the largest assigned id, and a further `addStash`
appends a fresh entry, never overwriting an existing stash. -/
theorem stash_key_set_invariant :
    ∀ (ops : List Op),
      keysOf (runOps ops) = List.range' 1 (numStashOps ops) ∧
      (runOps ops).stashes.length = numStashOps ops ∧
      (∀ s : Stash, ((runOps ops).addStash s).1.stashes =
        (runOps ops).stashes ++ [(numStashOps ops + 1, s)]) := by
  intro ops
  obtain ⟨hkeys, hlen0⟩ := runOps_inv ops Controller.New rfl
  have hrun : runOps ops = List.foldl applyOp Controller.New ops := rfl
  have hNew : Controller.New.stashes.length = 0 := rfl
  have hlen : (runOps ops).stashes.length = numStashOps ops := by
    rw [hrun]
    omega
  refine ⟨?_, hlen, ?_⟩
  · rw [hrun, hkeys, ← hrun, hlen]
  · intro s
    have hkeys' : keysOf (runOps ops) =
        List.range' 1 ((runOps ops).stashes.length) := by
      rw [hrun]
      exact hkeys
    obtain ⟨_, hstash, _, _, _⟩ := addStash_spec hkeys' s
    rw [hstash, hlen]

lemma exceptIsError_ok {ε α : Type} (a : α) :
    exceptIsError (Except.ok a : Except ε α) = false := rfl

lemma exceptIsError_error {ε α : Type} (msg : ε) :
    exceptIsError (Except.error msg : Except ε α) = true := rfl

lemma applyHipchatConfig_skip {k : String} (v : String)
    (c1 c2 : List (String × String))
    (hk1 : k ≠ "room") (hk2 : k ≠ "token") (hk3 : k ≠ "from")
    (hk4 : k ≠ "endpoint") :
    applyHipchatConfig (c1 ++ (k, v) :: c2) =
      applyHipchatConfig (c1 ++ c2) := by
  unfold applyHipchatConfig
  rw [List.foldl_append, List.foldl_append, List.foldl_cons]
  congr 1
  simp [hk1, hk2, hk3, hk4]

/-- C5: `NewHipchat` fails exactly when the folded configuration leaves
the room identifier, the token or the display name empty; on success the
constructed sink carries the configured fields, with the endpoint
defaulted to `https://api.hipchat.com` when the configuration left it
absent or empty; and a configuration entry whose key is none of room,
token, from, endpoint is ignored. -/
theorem newHipchat_spec :
    (∀ config : List (String × String),
      exceptIsError (NewHipchat config) = true ↔
        ((applyHipchatConfig config).RoomID = "" ∨
         (applyHipchatConfig config).Token = "" ∨
         (applyHipchatConfig config).From = "")) ∧
    (∀ (config : List (String × String)) (h : Hipchat),
      NewHipchat config = Except.ok h →
        h.RoomID = (applyHipchatConfig config).RoomID ∧
        h.Token = (applyHipchatConfig config).Token ∧
        h.From = (applyHipchatConfig config).From ∧
        h.Endpoint = (if (applyHipchatConfig config).Endpoint = "" then
          HipchatDefaultEndoint else (applyHipchatConfig config).Endpoint)) ∧
    (∀ (k v : String) (c1 c2 : List (String × String)),
      k ≠ "room" → k ≠ "token" → k ≠ "from" → k ≠ "endpoint" →
      NewHipchat (c1 ++ (k, v) :: c2) = NewHipchat (c1 ++ c2)) := by
  refine ⟨?_, ?_, ?_⟩
  · intro config
    unfold NewHipchat
    by_cases hr : (applyHipchatConfig config).RoomID = "" <;>
      by_cases ht : (applyHipchatConfig config).Token = "" <;>
        by_cases hf : (applyHipchatConfig config).From = "" <;>
          simp [hr, ht, hf, exceptIsError_ok, exceptIsError_error,
            apply_ite exceptIsError]
  · intro config h hok
    unfold NewHipchat at hok
    by_cases hr : (applyHipchatConfig config).RoomID = ""
    · simp [hr] at hok
    · by_cases ht : (applyHipchatConfig config).Token = ""
      · simp [hr, ht] at hok
      · by_cases hf : (applyHipchatConfig config).From = ""
        · simp [hr, ht, hf] at hok
        · by_cases he : (applyHipchatConfig config).Endpoint = ""
          · simp [hr, ht, hf, he] at hok
            simp [← hok, he]
          · simp [hr, ht, hf, he] at hok
            simp [← hok, he]
  · intro k v c1 c2 hk1 hk2 hk3 hk4
    unfold NewHipchat
    rw [applyHipchatConfig_skip v c1 c2 hk1 hk2 hk3 hk4]

/-- Witness for `newHipchat_spec` at concrete configurations: a
configuration carrying room, token and from (plus an unrecognized color
key) constructs a sink with the default endpoint, and inserting the
unrecognized entry does not change the construction. -/
theorem newHipchat_spec_witness :
    ((Hipchat.mk HipchatDefaultEndoint "r1" "t1" "bot").RoomID =
        (applyHipchatConfig
          [("room", "r1"), ("token", "t1"), ("from", "bot")]).RoomID ∧
      (Hipchat.mk HipchatDefaultEndoint "r1" "t1" "bot").Token =
        (applyHipchatConfig
          [("room", "r1"), ("token", "t1"), ("from", "bot")]).Token ∧
      (Hipchat.mk HipchatDefaultEndoint "r1" "t1" "bot").From =
        (applyHipchatConfig
          [("room", "r1"), ("token", "t1"), ("from", "bot")]).From ∧
      (Hipchat.mk HipchatDefaultEndoint "r1" "t1" "bot").Endpoint =
        (if (applyHipchatConfig
            [("room", "r1"), ("token", "t1"), ("from", "bot")]).Endpoint
            = "" then
          HipchatDefaultEndoint
        else (applyHipchatConfig
            [("room", "r1"), ("token", "t1"), ("from", "bot")]).Endpoint)) ∧
    NewHipchat ([("room", "r1")] ++ ("color", "red") ::
        [("token", "t1"), ("from", "bot")]) =
      NewHipchat ([("room", "r1")] ++ [("token", "t1"), ("from", "bot")]) := by
  constructor
  · exact newHipchat_spec.2.1 [("room", "r1"), ("token", "t1"), ("from", "bot")]
      (Hipchat.mk HipchatDefaultEndoint "r1" "t1" "bot") rfl
  · exact newHipchat_spec.2.2 "color" "red" [("room", "r1")]
      [("token", "t1"), ("from", "bot")]
      (by decide) (by decide) (by decide) (by decide)

/-- C6 counterexample: when marshalling, request construction and the
POST all succeed with status 200 but the response body cannot be read,
`Hipchat.Send` returns nil — the `err` from `ioutil.ReadAll` is assigned
but never checked — so "returns an error if the response body cannot be
read" is false on the code. -/
theorem hipchatSend_read_failure_ignored :
    Hipchat.Send sampleHipchat createUserEvent readFailedEffects =
      Except.ok () ∧
    exceptIsError readFailedResp.readBody = true ∧
    readFailedResp.statusCode < 300 ∧
    exceptIsError readFailedEffects.doResult = false ∧
    exceptIsError readFailedEffects.marshalResult = false ∧
    exceptIsError readFailedEffects.newRequestResult = false :=
  ⟨rfl, rfl, by decide, rfl, rfl, rfl⟩

/-- C6 (amended): `Hipchat.Send` returns an error iff the message cannot
be marshalled, the request cannot be constructed, the HTTP POST cannot
be made, or the response status code is ≥ 300; a failure to read the
response body does not by itself produce an error (the body only feeds
the ≥ 300 error message), and no retry is performed (`Send` consumes one
set of effects). -/
theorem hipchatSend_error_iff :
    ∀ (h : Hipchat) (e : Event) (eff : SendEffects),
      exceptIsError (h.Send e eff) = true ↔
        (exceptIsError eff.marshalResult = true ∨
         exceptIsError eff.newRequestResult = true ∨
         exceptIsError eff.doResult = true ∨
         ∃ resp, eff.doResult = Except.ok resp ∧ 300 ≤ resp.statusCode) := by
  intro h e eff
  unfold Hipchat.Send
  cases hm : eff.marshalResult with
  | error msg => simp [exceptIsError]
  | ok body =>
    cases hq : eff.newRequestResult with
    | error msg => simp [exceptIsError]
    | ok u =>
      cases hd : eff.doResult with
      | error msg => simp [exceptIsError]
      | ok resp =>
        by_cases hs : 300 ≤ resp.statusCode
        · simp [exceptIsError, hs, ge_iff_le]
        · simp [exceptIsError, hs, ge_iff_le]

lemma legacyFindDiscard_cons_true {stashID : Nat}
    {st : CloudtailLegacy.LegacyStash}
    {rest : List (Nat × CloudtailLegacy.LegacyStash)} {e : Event}
    {d : String} (hp : st.discard e d = true) :
    CloudtailLegacy.legacyFindDiscard ((stashID, st) :: rest) e d =
      some stashID := by
  simp only [CloudtailLegacy.legacyFindDiscard]
  rw [hp]
  simp

lemma legacyFindDiscard_cons_false {stashID : Nat}
    {st : CloudtailLegacy.LegacyStash}
    {rest : List (Nat × CloudtailLegacy.LegacyStash)} {e : Event}
    {d : String} (hp : st.discard e d = false) :
    CloudtailLegacy.legacyFindDiscard ((stashID, st) :: rest) e d =
      CloudtailLegacy.legacyFindDiscard rest e d := by
  simp only [CloudtailLegacy.legacyFindDiscard]
  rw [hp]
  simp

lemma findDiscard_toStash (lst : List (Nat × CloudtailLegacy.LegacyStash))
    (e : Event) (d : String) :
    findDiscard (lst.map (fun p => (p.1, CloudtailLegacy.toStash p.2))) e d =
      CloudtailLegacy.legacyFindDiscard lst e d := by
  induction lst with
  | nil => rfl
  | cons p rest ih =>
    obtain ⟨stashID, ls⟩ := p
    rw [List.map_cons]
    cases hb : ls.discard e d with
    | true =>
      rw [findDiscard_cons_true
          (show (CloudtailLegacy.toStash ls).discard e d = true from hb),
        legacyFindDiscard_cons_true hb]
    | false =>
      rw [findDiscard_cons_false
          (show (CloudtailLegacy.toStash ls).discard e d = false from hb),
        legacyFindDiscard_cons_false hb, ih]

lemma processEvent_cons (stashes : List (Nat × Stash)) (n : NotifierM)
    (rest : List NotifierM) (e : Event) :
    processEvent stashes (n :: rest) e =
      (n.name, notifierOutcome stashes n e) :: processEvent stashes rest e :=
  rfl

lemma legacyDispatch_cons (stashes : List (Nat × CloudtailLegacy.LegacyStash))
    (sv : CloudtailLegacy.LegacyService)
    (rest : List CloudtailLegacy.LegacyService) (e : Event) :
    CloudtailLegacy.legacyDispatch stashes (sv :: rest) e =
      (sv.name,
        !(CloudtailLegacy.legacyFindDiscard stashes e sv.name).isSome) ::
        CloudtailLegacy.legacyDispatch stashes rest e :=
  rfl

lemma sentNames_cons_suppressed (name : String) (stashID : Nat)
    (rest : List (String × Outcome)) :
    sentNames ((name, Outcome.suppressed stashID) :: rest) =
      sentNames rest := by
  simp [sentNames, List.filter_cons]

lemma sentNames_cons_sentOk (name : String)
    (rest : List (String × Outcome)) :
    sentNames ((name, Outcome.sentOk) :: rest) = name :: sentNames rest := by
  simp [sentNames, List.filter_cons]

lemma sentNames_cons_sentErr (name msg : String)
    (rest : List (String × Outcome)) :
    sentNames ((name, Outcome.sentErr msg) :: rest) =
      name :: sentNames rest := by
  simp [sentNames, List.filter_cons]

lemma legacySentNames_cons (name : String) (b : Bool)
    (rest : List (String × Bool)) :
    CloudtailLegacy.legacySentNames ((name, b) :: rest) =
      (if b then name :: CloudtailLegacy.legacySentNames rest
       else CloudtailLegacy.legacySentNames rest) := by
  cases b <;> simp [CloudtailLegacy.legacySentNames, List.filter_cons]

/-- C9: the legacy single-file implementation and the current one compute
the same dispatch decision: `stash.discard` and `Stash.discard` agree on
the shared fields, and for the same stash mapping, notifier sequence and
event, the notifiers whose `Send` is invoked by the legacy in-handler
loop are exactly those invoked by `processEvent` (in the same order). -/
theorem legacy_dispatch_refinement :
    (∀ (ls : CloudtailLegacy.LegacyStash) (e : Event) (d : String),
      ls.discard e d = (CloudtailLegacy.toStash ls).discard e d) ∧
    (∀ (lst : List (Nat × CloudtailLegacy.LegacyStash))
        (ns : List NotifierM) (e : Event),
      sentNames (processEvent
          (lst.map (fun p => (p.1, CloudtailLegacy.toStash p.2))) ns e) =
        CloudtailLegacy.legacySentNames
          (CloudtailLegacy.legacyDispatch lst
            (ns.map (fun n => ⟨n.name⟩)) e)) := by
  refine ⟨fun ls e d => rfl, ?_⟩
  intro lst ns e
  induction ns with
  | nil => rfl
  | cons n rest ih =>
    rw [List.map_cons, processEvent_cons, legacyDispatch_cons]
    cases hl : CloudtailLegacy.legacyFindDiscard lst e n.name with
    | some stashID =>
      have houtcome : notifierOutcome
          (lst.map (fun p => (p.1, CloudtailLegacy.toStash p.2))) n e =
          Outcome.suppressed stashID := by
        unfold notifierOutcome
        rw [findDiscard_toStash, hl]
      rw [houtcome, sentNames_cons_suppressed, legacySentNames_cons]
      simpa using ih
    | none =>
      have hnone : findDiscard
          (lst.map (fun p => (p.1, CloudtailLegacy.toStash p.2))) e n.name =
          none := by
        rw [findDiscard_toStash, hl]
      rw [legacySentNames_cons]
      cases hsend : n.send e with
      | ok u =>
        have houtcome : notifierOutcome
            (lst.map (fun p => (p.1, CloudtailLegacy.toStash p.2))) n e =
            Outcome.sentOk := by
          unfold notifierOutcome
          rw [hnone, hsend]
        rw [houtcome, sentNames_cons_sentOk, ih]
        simp
      | error msg =>
        have houtcome : notifierOutcome
            (lst.map (fun p => (p.1, CloudtailLegacy.toStash p.2))) n e =
            Outcome.sentErr msg := by
          unfold notifierOutcome
          rw [hnone, hsend]
        rw [houtcome, sentNames_cons_sentErr, ih]
        simp

end Cloudtail
